import Mathlib

/-!
Verification of the Smriti journal-analytics backend (src/backend/main.py,
src/backend/database.py) against its natural-language specification.

The Python source is shallowly embedded: pure string/list manipulations become
Lean functions on `String`/`List`, the background embedding job becomes an
explicit state-transformer that also records the trace of status snapshots
written under the lock, and the opaque NLP capabilities (sentence encoder,
llama text generator, spaCy entity extractor) are parameters of the
definitions that use them, exactly as the spec treats them ("opaque
capabilities the core calls through stable interfaces").
-/

set_option maxHeartbeats 1000000

namespace Smriti

/-! ## Python string primitives

`strContains hay needle` models Python's `needle in hay` (case-sensitive
contiguous substring on code points, the semantics used by
`entity in entry` in `post_co_occurrence` and by SQL `LIKE '%e%'` filters
restricted to literal entity strings). -/

/-- Predicate `startsWithList needle hay`: `hay` begins with `needle` (char-exact). -/
def startsWithList : List Char → List Char → Bool
  | [], _ => true
  | _ :: _, [] => false
  | a :: as, b :: bs => a == b && startsWithList as bs

/-- Predicate `containsList needle hay`: `needle` occurs contiguously in `hay`
(Python `needle in hay`; the empty needle always occurs). -/
def containsList (needle : List Char) : List Char → Bool
  | [] => startsWithList needle []
  | c :: t => startsWithList needle (c :: t) || containsList needle t

/-- Python `needle in hay` on strings. -/
def strContains (hay needle : String) : Bool :=
  containsList needle.toList hay.toList

/-- Python `"sep".join(xs)`. -/
def joinSep (sep : String) : List String → String
  | [] => ""
  | [x] => x
  | x :: y :: xs => x ++ sep ++ joinSep sep (y :: xs)

/-! ## C1 — the `entries` table schema (src/backend/database.py)

`JournalEntry` in database.py declares exactly the mapped columns below.
`main.py` (`run_embedding_generation`, `semantic_search`) reads and writes
`JournalEntry.embedding`, a column database.py does not declare. -/

/-- The mapped columns of `JournalEntry` as declared in src/backend/database.py
(lines 22-27): `id`, `entry_date`, `content`, `tags` — and nothing else. -/
def journalEntryColumns : List String :=
  ["id", "entry_date", "content", "tags"]

/-- The `JournalEntry` attributes that `run_embedding_generation` and
`semantic_search` in src/backend/main.py dereference on the ORM class
(`JournalEntry.embedding.is_(None)` / `.is_not(None)`, `entry.embedding`). -/
def embeddingJobColumnsUsed : List String :=
  ["embedding", "content"]

/-! ## The embedding indexing job (src/backend/main.py, run_embedding_generation)

Modelled from the spec: the `embedding` column is absent from database.py's
`JournalEntry`, so the entry record used below carries the nullable
`embedding` field the spec describes ("optional embedding vector …, nullable
until indexed") and main.py dereferences.

The encoder capability is a parameter `encode : String → Option V`; `none`
models `embedding_model.encode` (or `pickle.dumps`) raising, which the
`except` branch of `run_embedding_generation` catches.  The job returns the
list of status snapshots successively visible through `/api/import/status`
(each `with status_lock:` write), the resulting entry collection (after
`db.commit()` on success / `db.rollback()` on failure), and the final
status. -/

/-- Journal entry as used by main.py: text content plus nullable embedding. -/
structure JEntry (V : Type) where
  content : String
  embedding : Option V
  deriving DecidableEq, Repr

/-- The `embedding_status` states that run_embedding_generation writes. -/
inductive JobState where
  | idle
  | processing
  deriving DecidableEq, Repr

/-- The global `embedding_status` dict: status / progress / total. -/
structure JobStatus where
  state : JobState
  progress : Nat
  total : Nat
  deriving DecidableEq, Repr

/-- The per-item loop of `run_embedding_generation`: for the `done`-th
completed item it writes `progress = done + 1`; on the first encoding
failure the loop aborts (exception path).  Returns the status snapshots
written inside the loop and whether the loop completed. -/
def embedSteps {V : Type} (encode : String → Option V) (total : Nat) :
    List (JEntry V) → Nat → List JobStatus × Bool
  | [], _ => ([], true)
  | e :: rest, done =>
    match encode e.content with
    | none => ([], false)
    | some _ =>
      let r := embedSteps encode total rest (done + 1)
      (⟨.processing, done + 1, total⟩ :: r.1, r.2)

/-- Model of `run_embedding_generation(db)`.  Selects the entries whose embedding is
absent; if there are none it only writes `status = "idle"` (branch at line
114-115 plus the `finally`).  Otherwise it writes
`{"status": "processing", "total": n, "progress": 0}`, embeds each entry
updating `progress`, commits on success / rolls back on failure, and the
`finally` block writes `status = "idle"` — and only `status`: `progress`
and `total` are left at their last values. -/
def runEmbeddingGeneration {V : Type} (encode : String → Option V)
    (entries : List (JEntry V)) (st : JobStatus) :
    List JobStatus × List (JEntry V) × JobStatus :=
  let toEmbed := entries.filter (fun e => e.embedding.isNone)
  if toEmbed.isEmpty then
    ([⟨.idle, st.progress, st.total⟩], entries, ⟨.idle, st.progress, st.total⟩)
  else
    let n := toEmbed.length
    let r := embedSteps encode n toEmbed 0
    let committed :=
      if r.2 then
        entries.map (fun e =>
          if e.embedding.isNone then ⟨e.content, encode e.content⟩ else e)
      else entries
    (⟨.processing, 0, n⟩ :: r.1 ++ [⟨.idle, r.1.length, n⟩],
      committed, ⟨.idle, r.1.length, n⟩)

/-! ### Lemmas about the job trace -/

theorem embedSteps_trace_bounds {V : Type} (encode : String → Option V)
    (total : Nat) :
    ∀ (l : List (JEntry V)) (done : Nat), done + l.length ≤ total →
      ∀ s ∈ (embedSteps encode total l done).1,
        s.state = .processing ∧ s.progress ≤ s.total ∧ s.total = total := by
  intro l
  induction l with
  | nil => intro done _ s hs; simp [embedSteps] at hs
  | cons e rest ih =>
    intro done hle s hs
    simp only [embedSteps] at hs
    cases henc : encode e.content with
    | none => rw [henc] at hs; simp at hs
    | some v =>
      rw [henc] at hs
      simp only [List.mem_cons] at hs
      rcases hs with h | h
      · subst h
        refine ⟨rfl, ?_, rfl⟩
        show done + 1 ≤ total
        simp only [List.length_cons] at hle
        omega
      · exact ih (done + 1) (by simp only [List.length_cons] at hle; omega) s h

theorem embedSteps_trace_length {V : Type} (encode : String → Option V)
    (total : Nat) :
    ∀ (l : List (JEntry V)) (done : Nat),
      (embedSteps encode total l done).1.length ≤ l.length ∧
      ((embedSteps encode total l done).2 = true →
        (embedSteps encode total l done).1.length = l.length) := by
  intro l
  induction l with
  | nil => intro done; simp [embedSteps]
  | cons e rest ih =>
    intro done
    simp only [embedSteps]
    cases henc : encode e.content with
    | none => simp
    | some v =>
      simp only [List.length_cons]
      constructor
      · have := (ih (done + 1)).1
        omega
      · intro h
        have := (ih (done + 1)).2 h
        omega

/-- C1: the claim reads "Every journal entry has an optional embedding field
that is null until indexed", citing `JournalEntry` in src/backend/database.py.
The declared `entries` table has no `embedding` column at all, while
src/backend/main.py's indexing job and semantic search dereference
`JournalEntry.embedding` (so every indexing run and every semantic-search
request raises `AttributeError` against this schema): the schema omits a
column its own callers require. -/
theorem journalEntry_embedding_column_missing :
    "embedding" ∉ journalEntryColumns ∧
      "embedding" ∈ embeddingJobColumnsUsed := by
  decide

/-- C2 (amended): after `run_embedding_generation` terminates — successfully
or not — the job state is `idle`, and every status snapshot observable while
`state = processing` satisfies `0 ≤ progress ≤ total`; but `progress` and
`total` are NOT reset to 0: the `finally` block writes only
`embedding_status["status"]`, so both retain their last values. -/
theorem runEmbedding_final_idle_and_processing_invariant {V : Type}
    (encode : String → Option V) (entries : List (JEntry V)) (st : JobStatus) :
    (runEmbeddingGeneration encode entries st).2.2.state = .idle ∧
      ∀ s ∈ (runEmbeddingGeneration encode entries st).1,
        s.state = .processing → 0 ≤ s.progress ∧ s.progress ≤ s.total := by
  constructor
  · unfold runEmbeddingGeneration
    by_cases hemp : (entries.filter (fun e => e.embedding.isNone)).isEmpty <;>
      simp [hemp]
  · intro s hs hproc
    refine ⟨Nat.zero_le _, ?_⟩
    unfold runEmbeddingGeneration at hs
    by_cases hemp : (entries.filter (fun e => e.embedding.isNone)).isEmpty
    · simp only [hemp, if_true] at hs
      rw [List.mem_singleton.mp hs] at hproc
      simp at hproc
    · simp only [hemp, Bool.false_eq_true, if_false] at hs
      rcases List.mem_cons.mp hs with h | h
      · rw [h]; exact Nat.zero_le _
      · rcases List.mem_append.mp h with h2 | h2
        · exact (embedSteps_trace_bounds encode
            (entries.filter (fun e => e.embedding.isNone)).length
            (entries.filter (fun e => e.embedding.isNone)) 0
            (by omega) s h2).2.1
        · rw [List.mem_singleton.mp h2] at hproc
          simp at hproc

/-- Witness for `runEmbedding_final_idle_and_processing_invariant`: on one
un-embedded entry from the pristine status, the final state is idle and the
mid-loop snapshot `{processing, 1, 1}` satisfies the invariant. -/
theorem runEmbedding_invariant_witness :
    (runEmbeddingGeneration (V := Nat) (fun _ => some 0) [⟨"hi", none⟩]
        ⟨.idle, 0, 0⟩).2.2.state = .idle ∧
      ((0 : Nat) ≤ 1 ∧ (1 : Nat) ≤ 1) :=
  ⟨(runEmbedding_final_idle_and_processing_invariant (fun _ => some 0)
      [⟨"hi", none⟩] ⟨.idle, 0, 0⟩).1,
   (runEmbedding_final_idle_and_processing_invariant (fun _ => some 0)
      [⟨"hi", none⟩] ⟨.idle, 0, 0⟩).2 ⟨.processing, 1, 1⟩ (by decide) rfl⟩

/-- C2 counterexample: run the job (encoder succeeding) on one un-embedded
entry starting from the pristine status `{idle, 0, 0}`.  The final status is
`{idle, 1, 1}`: state is `idle` but `progress`/`total` are not reset to 0,
contradicting "the job status is reset to state = idle with progress = 0 and
total = 0". -/
theorem runEmbedding_status_not_reset_counterexample :
    (runEmbeddingGeneration (V := Nat) (fun _ => some 0)
        [⟨"hi", none⟩] ⟨.idle, 0, 0⟩).2.2.state = .idle ∧
      ¬((runEmbeddingGeneration (V := Nat) (fun _ => some 0)
          [⟨"hi", none⟩] ⟨.idle, 0, 0⟩).2.2.progress = 0 ∧
        (runEmbeddingGeneration (V := Nat) (fun _ => some 0)
          [⟨"hi", none⟩] ⟨.idle, 0, 0⟩).2.2.total = 0) := by
  decide

/-! ## C3 — semantic_search (src/backend/main.py lines 291-306)

The encoder and the cosine-similarity computation are opaque capabilities;
the ranking logic downstream of `similarities = cosine_similarity(...)[0]`
is embedded exactly: `np.argsort(similarities)[-15:][::-1]` followed by the
filter `similarities[i] > 0.15`.  `np.argsort` sorts ascending; its ties are
modelled in stable (original-index) order, which is what numpy's sort
produces on small arrays (insertion sort). -/

/-- Score `similarities[i]` (0 outside range, which never occurs for indices drawn
from `List.range sims.length`). -/
def simKey (sims : List ℚ) (i : Nat) : ℚ := sims.getD i 0

/-- The ascending order `np.argsort` sorts index `i` before index `j`:
strictly smaller score, or equal scores with `i` first (stability). -/
def argRel (sims : List ℚ) (i j : Nat) : Prop :=
  simKey sims i < simKey sims j ∨ (simKey sims i = simKey sims j ∧ i ≤ j)

instance (sims : List ℚ) : DecidableRel (argRel sims) := fun i j => by
  unfold argRel; infer_instance

instance (sims : List ℚ) : IsTotal Nat (argRel sims) where
  total i j := by
    rcases lt_trichotomy (simKey sims i) (simKey sims j) with h | h | h
    · exact Or.inl (Or.inl h)
    · rcases Nat.le_total i j with hij | hij
      · exact Or.inl (Or.inr ⟨h, hij⟩)
      · exact Or.inr (Or.inr ⟨h.symm, hij⟩)
    · exact Or.inr (Or.inl h)

instance (sims : List ℚ) : IsTrans Nat (argRel sims) where
  trans i j k hij hjk := by
    rcases hij with h1 | ⟨h1, h1'⟩ <;> rcases hjk with h2 | ⟨h2, h2'⟩
    · exact Or.inl (h1.trans h2)
    · exact Or.inl (lt_of_lt_of_le h1 h2.le)
    · exact Or.inl (lt_of_le_of_lt h1.le h2)
    · exact Or.inr ⟨h1.trans h2, h1'.trans h2'⟩

/-- Model of `np.argsort(similarities)`: the indices `0..n-1` sorted ascending by
score. -/
def argsortAsc (sims : List ℚ) : List Nat :=
  List.insertionSort (argRel sims) (List.range sims.length)

/-- Model of `np.argsort(similarities)[-15:][::-1]`: at most 15 top-scoring candidate
indices, highest score first. -/
def topCandidates (sims : List ℚ) : List Nat :=
  ((argsortAsc sims).drop (sims.length - 15)).reverse

/-- The filter `similarities[i] > 0.15` over the candidates, on the index
level (0.15 = 3/20). -/
def searchIndices (sims : List ℚ) : List Nat :=
  (topCandidates sims).filter (fun i => decide (mkRat 3 20 < simKey sims i))

/-- Model of `semantic_search`: empty result when no entry has an embedding,
otherwise the entries at the ranked, thresholded candidate indices. -/
def semanticSearch {α : Type} (entries : List α) (sims : List ℚ) : List α :=
  if entries.isEmpty then []
  else (searchIndices sims).filterMap (fun i => entries[i]?)

theorem sorted_argsortAsc (sims : List ℚ) :
    List.Sorted (argRel sims) (argsortAsc sims) :=
  List.sorted_insertionSort (argRel sims) (List.range sims.length)

theorem mem_argsortAsc {sims : List ℚ} {i : Nat} :
    i ∈ argsortAsc sims ↔ i < sims.length := by
  unfold argsortAsc
  rw [List.mem_insertionSort, List.mem_range]

theorem mem_topCandidates_of_mem_searchIndices {sims : List ℚ} {i : Nat}
    (h : i ∈ searchIndices sims) : i ∈ topCandidates sims :=
  (List.mem_filter.mp h).1

/-- C3 (amended): semantic search returns the top-15-by-rank candidates with
scores strictly above 0.15, scores non-increasing; but ties are returned in
REVERSE original entry order (the ascending argsort is reversed), not stable
original order.  An empty collection, or no score above the threshold,
yields an empty result. -/
theorem semanticSearch_ranking {α : Type} (sims : List ℚ) :
    List.Pairwise (fun i j =>
        simKey sims j < simKey sims i ∨
          (simKey sims j = simKey sims i ∧ j ≤ i)) (searchIndices sims) ∧
    (∀ i ∈ searchIndices sims, mkRat 3 20 < simKey sims i) ∧
    (searchIndices sims).length ≤ 15 ∧
    (∀ i ∈ searchIndices sims, ∀ j < sims.length, j ∉ topCandidates sims →
      simKey sims j ≤ simKey sims i) ∧
    ((∀ i, simKey sims i ≤ mkRat 3 20) → searchIndices sims = []) ∧
    (∀ entries : List α, entries = [] → semanticSearch entries sims = []) := by
  have hsorted := sorted_argsortAsc sims
  refine ⟨?_, ?_, ?_, ?_, ?_, ?_⟩
  · -- ordering with reversed ties
    have hdrop : List.Pairwise (argRel sims)
        ((argsortAsc sims).drop (sims.length - 15)) :=
      hsorted.sublist (List.drop_sublist _ _)
    have hrev : List.Pairwise (fun i j => argRel sims j i)
        (topCandidates sims) := by
      unfold topCandidates
      rw [List.pairwise_reverse]
      exact hdrop
    exact (hrev.sublist (List.filter_sublist _)).imp (fun h => h)
  · intro i hi
    have := (List.mem_filter.mp hi).2
    exact of_decide_eq_true this
  · have h1 : (searchIndices sims).length ≤ (topCandidates sims).length :=
      (List.filter_sublist _).length_le
    have h2 : (topCandidates sims).length =
        ((argsortAsc sims).drop (sims.length - 15)).length := by
      unfold topCandidates; rw [List.length_reverse]
    have h3 : (argsortAsc sims).length = sims.length := by
      unfold argsortAsc
      rw [List.length_insertionSort, List.length_range]
    rw [List.length_drop, h3] at h2
    omega
  · intro i hi j hj hnot
    have hjmem : j ∈ argsortAsc sims := mem_argsortAsc.mpr hj
    have hsplit := List.take_append_drop (sims.length - 15) (argsortAsc sims)
    have hpair : List.Pairwise (argRel sims)
        ((argsortAsc sims).take (sims.length - 15) ++
          (argsortAsc sims).drop (sims.length - 15)) := by
      rw [hsplit]; exact hsorted
    have hitop : i ∈ (argsortAsc sims).drop (sims.length - 15) := by
      have := mem_topCandidates_of_mem_searchIndices hi
      unfold topCandidates at this
      exact List.mem_reverse.mp this
    have hjtake : j ∈ (argsortAsc sims).take (sims.length - 15) := by
      rw [← hsplit] at hjmem
      rcases List.mem_append.mp hjmem with h | h
      · exact h
      · exact absurd (List.mem_reverse.mpr h) hnot
    have := (List.pairwise_append.mp hpair).2.2 j hjtake i hitop
    rcases this with h | ⟨h, _⟩
    · exact h.le
    · exact h.le
  · intro hall
    apply List.filter_eq_nil_iff.mpr
    intro i _
    simp only [decide_eq_true_eq]
    exact not_lt.mpr (hall i)
  · intro entries he
    subst he
    simp [semanticSearch]

/-- Witness for `semanticSearch_ranking`: sixteen entries, index 0 scoring
1/10 and indices 1..15 scoring 1/2.  Index 15 is returned, index 0 falls
out of the 15-candidate window, and its score is indeed not larger; a
separate all-below-threshold instance returns no indices, and the empty
collection returns no entries. -/
theorem semanticSearch_ranking_witness :
    mkRat 3 20 <
      simKey (mkRat 1 10 :: List.replicate 15 (mkRat 1 2)) 15 ∧
    simKey (mkRat 1 10 :: List.replicate 15 (mkRat 1 2)) 0 ≤
      simKey (mkRat 1 10 :: List.replicate 15 (mkRat 1 2)) 15 ∧
    searchIndices [mkRat 1 10] = [] ∧
    semanticSearch ([] : List String) [mkRat 1 2] = [] := by
  refine ⟨?_, ?_, ?_, ?_⟩
  · exact (semanticSearch_ranking (α := String)
      (mkRat 1 10 :: List.replicate 15 (mkRat 1 2))).2.1 15 (by decide)
  · exact (semanticSearch_ranking (α := String)
      (mkRat 1 10 :: List.replicate 15 (mkRat 1 2))).2.2.2.1 15 (by decide)
      0 (by decide) (by decide)
  · exact (semanticSearch_ranking (α := String) [mkRat 1 10]).2.2.2.2.1
      (by
        intro i
        rcases i with _ | i
        · decide
        · show simKey [mkRat 1 10] (i + 1) ≤ mkRat 3 20
          unfold simKey
          rw [List.getD_cons_succ, List.getD_nil]
          decide)
  · exact (semanticSearch_ranking (α := String) [mkRat 1 2]).2.2.2.2.2 [] rfl

/-- C3 counterexample: two entries with EQUAL similarity 1/2.  The claim
says ties are broken by stable original order (`["A", "B"]`); the code
reverses the ascending argsort, so it returns `["B", "A"]`. -/
theorem semanticSearch_tie_not_stable :
    semanticSearch ["A", "B"] [mkRat 1 2, mkRat 1 2] = ["B", "A"] ∧
      (["B", "A"] : List String) ≠ ["A", "B"] := by
  decide

/-! ## C4 — the context budgeter (src/backend/main.py lines 346-358)

STEP 3 of `digital_twin_qa`: walk the retrieved entries in rank order,
format each as `"Memory from {date}:\n{content}\n"`, and accumulate blocks
until `total_chars + len(content_to_add) > SAFE_CHAR_LIMIT`, then `break`. -/

/-- The block `f"Memory from {entry_date}:\n{entry.content}\n"`. -/
def memoryBlock (dateStr content : String) : String :=
  "Memory from " ++ dateStr ++ ":\n" ++ content ++ "\n"

/-- The constant `SAFE_CHAR_LIMIT = 4000`. -/
def SAFE_CHAR_LIMIT : Nat := 4000

/-- The accumulation loop over formatted blocks: stops (`break`) at the
first block that would push `total_chars` past the limit. -/
def budgetLoop : List String → Nat → List String
  | [], _ => []
  | b :: rest, total =>
    if total + b.length > SAFE_CHAR_LIMIT then []
    else b :: budgetLoop rest (total + b.length)

/-- The `context_list` built from the ranked retrieval results
(`(date, content)` pairs in rank order). -/
def includedBlocks (results : List (String × String)) : List String :=
  budgetLoop (results.map (fun r => memoryBlock r.1 r.2)) 0

/-- The string `formatted_context = "\n---\n".join(context_list)`. -/
def formattedContext (results : List (String × String)) : String :=
  joinSep "\n---\n" (includedBlocks results)

/-- Total characters of a block list. -/
def sumLen (blocks : List String) : Nat := (blocks.map String.length).sum

theorem budgetLoop_sum_le :
    ∀ (bs : List String) (t : Nat), t ≤ SAFE_CHAR_LIMIT →
      t + sumLen (budgetLoop bs t) ≤ SAFE_CHAR_LIMIT := by
  intro bs
  induction bs with
  | nil => intro t ht; simpa [budgetLoop, sumLen] using ht
  | cons b rest ih =>
    intro t ht
    by_cases hover : t + b.length > SAFE_CHAR_LIMIT
    · simpa [budgetLoop, hover, sumLen] using ht
    · have h1 : t + b.length ≤ SAFE_CHAR_LIMIT := by omega
      have h2 := ih (t + b.length) h1
      simp only [budgetLoop, hover, if_false, sumLen, List.map_cons,
        List.sum_cons] at h2 ⊢
      omega

theorem budgetLoop_is_take :
    ∀ (bs : List String) (t : Nat),
      budgetLoop bs t = bs.take (budgetLoop bs t).length := by
  intro bs
  induction bs with
  | nil => intro t; simp [budgetLoop]
  | cons b rest ih =>
    intro t
    by_cases hover : t + b.length > SAFE_CHAR_LIMIT
    · simp [budgetLoop, hover]
    · simp only [budgetLoop, hover, if_false, List.length_cons,
        List.take_succ_cons, List.cons.injEq, true_and]
      exact ih (t + b.length)

theorem budgetLoop_first_excluded_exceeds :
    ∀ (bs : List String) (t : Nat),
      (budgetLoop bs t).length < bs.length →
      t + sumLen (budgetLoop bs t) +
        (bs.getD (budgetLoop bs t).length "").length > SAFE_CHAR_LIMIT := by
  intro bs
  induction bs with
  | nil => intro t h; simp [budgetLoop] at h
  | cons b rest ih =>
    intro t h
    by_cases hover : t + b.length > SAFE_CHAR_LIMIT
    · simp [budgetLoop, hover, sumLen]
    · simp only [budgetLoop, hover, if_false, List.length_cons,
        Nat.add_lt_add_iff_right, sumLen, List.map_cons, List.sum_cons,
        List.getD_cons_succ] at h ⊢
      have := ih (t + b.length) h
      simp only [sumLen] at this
      omega

/-- C4 (amended): the Context Budgeter includes whole formatted blocks in
rank order (a prefix of the block list — never truncated mid-block), their
total length is ≤ the 4000-character budget, and appending the FIRST
excluded block would exceed the budget.  (Later excluded blocks need not
exceed it: the loop `break`s at the first overflow and never reconsiders
shorter blocks further down the ranking.) -/
theorem contextBudgeter_spec (results : List (String × String)) :
    SAFE_CHAR_LIMIT = 4000 ∧
    sumLen (includedBlocks results) ≤ SAFE_CHAR_LIMIT ∧
    includedBlocks results =
      (results.map (fun r => memoryBlock r.1 r.2)).take
        (includedBlocks results).length ∧
    ((includedBlocks results).length <
        (results.map (fun r => memoryBlock r.1 r.2)).length →
      sumLen (includedBlocks results) +
        ((results.map (fun r => memoryBlock r.1 r.2)).getD
          (includedBlocks results).length "").length > SAFE_CHAR_LIMIT) := by
  refine ⟨rfl, ?_, ?_, ?_⟩
  · have := budgetLoop_sum_le (results.map (fun r => memoryBlock r.1 r.2)) 0
      (by simp [SAFE_CHAR_LIMIT])
    simpa [includedBlocks] using this
  · exact budgetLoop_is_take (results.map (fun r => memoryBlock r.1 r.2)) 0
  · intro h
    unfold includedBlocks at h ⊢
    have hgen := budgetLoop_first_excluded_exceeds
      (results.map (fun r => memoryBlock r.1 r.2)) 0
    have h2 := hgen h
    omega

theorem length_mk_replicate (n : Nat) (c : Char) :
    (String.mk (List.replicate n c)).length = n := by
  show (List.replicate n c).length = n
  simp

theorem memoryBlock_length (d c : String) :
    (memoryBlock d c).length = d.length + c.length + 15 := by
  unfold memoryBlock
  rw [String.length_append, String.length_append, String.length_append,
    String.length_append]
  have h1 : ("Memory from " : String).length = 12 := rfl
  have h2 : (":\n" : String).length = 2 := rfl
  have h3 : ("\n" : String).length = 1 := rfl
  omega

/-- Witness for `contextBudgeter_spec`: a single 3976-character memory gives
a 4001-character block; it is excluded (the included list is empty) and
appending it would exceed the 4000-character budget. -/
theorem contextBudgeter_spec_witness :
    sumLen (includedBlocks
        [("2023-01-01", String.mk (List.replicate 3976 'a'))]) +
      (([("2023-01-01", String.mk (List.replicate 3976 'a'))].map
          (fun r => memoryBlock r.1 r.2)).getD
        (includedBlocks
          [("2023-01-01", String.mk (List.replicate 3976 'a'))]).length
        "").length > SAFE_CHAR_LIMIT :=
  (contextBudgeter_spec
      [("2023-01-01", String.mk (List.replicate 3976 'a'))]).2.2.2
    (by
      have hb : (memoryBlock "2023-01-01"
          (String.mk (List.replicate 3976 'a'))).length = 4001 := by
        rw [memoryBlock_length, length_mk_replicate]
        rfl
      have hinc : includedBlocks
          [("2023-01-01", String.mk (List.replicate 3976 'a'))] = [] := by
        unfold includedBlocks
        simp only [List.map_cons, List.map_nil]
        rw [budgetLoop]
        rw [if_pos (by rw [hb]; decide)]
      rw [hinc]
      simp)

/-- C4 counterexample: blocks of 3900, 200 and 50 characters.  Only the
first is included (3900 + 200 would exceed 4000); the 50-character block is
excluded although appending it to the included set would give 3950 ≤ 4000
characters — refuting "appending any excluded block to the included set
would exceed the budget". -/
theorem contextBudgeter_excluded_block_fits :
    includedBlocks
        [("2023-01-01", String.mk (List.replicate 3875 'a')),
         ("2023-01-02", String.mk (List.replicate 175 'b')),
         ("2023-01-03", String.mk (List.replicate 25 'c'))] =
      [memoryBlock "2023-01-01" (String.mk (List.replicate 3875 'a'))] ∧
    memoryBlock "2023-01-03" (String.mk (List.replicate 25 'c')) ∉
      includedBlocks
        [("2023-01-01", String.mk (List.replicate 3875 'a')),
         ("2023-01-02", String.mk (List.replicate 175 'b')),
         ("2023-01-03", String.mk (List.replicate 25 'c'))] ∧
    sumLen (includedBlocks
        [("2023-01-01", String.mk (List.replicate 3875 'a')),
         ("2023-01-02", String.mk (List.replicate 175 'b')),
         ("2023-01-03", String.mk (List.replicate 25 'c'))]) +
      (memoryBlock "2023-01-03" (String.mk (List.replicate 25 'c'))).length ≤
      SAFE_CHAR_LIMIT := by
  have h1 : (memoryBlock "2023-01-01"
      (String.mk (List.replicate 3875 'a'))).length = 3900 := by
    rw [memoryBlock_length, length_mk_replicate]; rfl
  have h2 : (memoryBlock "2023-01-02"
      (String.mk (List.replicate 175 'b'))).length = 200 := by
    rw [memoryBlock_length, length_mk_replicate]; rfl
  have h3 : (memoryBlock "2023-01-03"
      (String.mk (List.replicate 25 'c'))).length = 50 := by
    rw [memoryBlock_length, length_mk_replicate]; rfl
  have hinc : includedBlocks
      [("2023-01-01", String.mk (List.replicate 3875 'a')),
       ("2023-01-02", String.mk (List.replicate 175 'b')),
       ("2023-01-03", String.mk (List.replicate 25 'c'))] =
      [memoryBlock "2023-01-01" (String.mk (List.replicate 3875 'a'))] := by
    unfold includedBlocks
    simp only [List.map_cons, List.map_nil]
    rw [budgetLoop]
    rw [if_neg (by rw [h1]; decide)]
    rw [budgetLoop]
    rw [if_pos (by rw [h1, h2]; decide)]
  refine ⟨hinc, ?_, ?_⟩
  · rw [hinc]
    intro hmem
    have := List.mem_singleton.mp hmem
    have hlen := congrArg String.length this
    rw [h1, h3] at hlen
    exact absurd hlen (by decide)
  · rw [hinc]
    unfold sumLen
    simp only [List.map_cons, List.map_nil, List.sum_cons, List.sum_nil]
    rw [h1, h3]
    decide

/-! ## C8 — response parsing (src/backend/main.py lines 400-412)

STEP 5 of `digital_twin_qa`:
`re.search(r'\*\*Final Answer:\*\*', full_response_text, re.IGNORECASE)` —
the FIRST case-insensitive occurrence of the literal `**Final Answer:**`
(asterisks and colon included); if found, the text after the match is
returned `.strip()`ed, otherwise the whole text `.strip()`ed. -/

/-- Case-insensitive "text begins with marker" (re.IGNORECASE on a literal
pattern). -/
def startsWithCI : List Char → List Char → Bool
  | [], _ => true
  | _ :: _, [] => false
  | a :: as, b :: bs => (a.toLower == b.toLower) && startsWithCI as bs

/-- Index of the first case-insensitive occurrence of `marker`
(`re.search`), if any. -/
def findCI (marker : List Char) : List Char → Option Nat
  | [] => if startsWithCI marker [] then some 0 else none
  | c :: t =>
    if startsWithCI marker (c :: t) then some 0
    else (findCI marker t).map (fun i => i + 1)

/-- The literal regex pattern `\*\*Final Answer:\*\*`. -/
def finalAnswerMarker : String := "**Final Answer:**"

/-- Python `str.strip()`: drop leading and trailing whitespace. -/
def pyStrip (s : String) : String :=
  String.mk
    (((s.toList.dropWhile Char.isWhitespace).reverse.dropWhile
        Char.isWhitespace).reverse)

/-- STEP 5: marker found → text after the match, stripped; not found →
the raw text, stripped. -/
def parseAnswer (fullText : String) : String :=
  match findCI finalAnswerMarker.toList fullText.toList with
  | some i =>
    pyStrip (String.mk (fullText.toList.drop (i + finalAnswerMarker.length)))
  | none => pyStrip fullText

theorem findCI_some_spec (m : List Char) :
    ∀ (l : List Char) (i : Nat), findCI m l = some i →
      startsWithCI m (l.drop i) = true ∧
      ∀ j, j < i → startsWithCI m (l.drop j) = false := by
  intro l
  induction l with
  | nil =>
    intro i h
    by_cases hc : startsWithCI m []
    · simp only [findCI, hc, if_true, Option.some.injEq] at h
      subst h
      exact ⟨hc, by omega⟩
    · simp [findCI, hc] at h
  | cons c t ih =>
    intro i h
    by_cases hc : startsWithCI m (c :: t)
    · simp only [findCI, hc, if_true, Option.some.injEq] at h
      subst h
      exact ⟨hc, by omega⟩
    · simp only [findCI, hc, if_false, Bool.false_eq_true, Option.map_eq_some'] at h
      obtain ⟨i', hfind, hi⟩ := h
      subst hi
      obtain ⟨h1, h2⟩ := ih i' hfind
      refine ⟨h1, ?_⟩
      intro j hj
      match j with
      | 0 => simpa using (Bool.eq_false_iff.mpr hc)
      | j' + 1 =>
        rw [List.drop_succ_cons]
        exact h2 j' (by omega)

theorem findCI_none_spec (m : List Char) :
    ∀ l : List Char, findCI m l = none →
      ∀ j, startsWithCI m (l.drop j) = false := by
  intro l
  induction l with
  | nil =>
    intro h j
    by_cases hc : startsWithCI m []
    · simp [findCI, hc] at h
    · rw [List.drop_nil]
      exact Bool.eq_false_iff.mpr hc
  | cons c t ih =>
    intro h j
    by_cases hc : startsWithCI m (c :: t)
    · simp [findCI, hc] at h
    · simp only [findCI, hc, if_false, Bool.false_eq_true,
        Option.map_eq_none'] at h
      match j with
      | 0 => simpa using (Bool.eq_false_iff.mpr hc)
      | j' + 1 =>
        rw [List.drop_succ_cons]
        exact ih h j'

/-- C8 (amended): the parser locates the FIRST case-insensitive occurrence
of the literal `**Final Answer:**` (with the bold asterisks and colon — not
the bare words "Final Answer"); if present it returns the text after that
occurrence with surrounding whitespace stripped (not the exact raw
remainder), if absent it returns the whole output stripped; it is a total
function, so it never raises. -/
theorem parseAnswer_spec (s : String) :
    (∀ i, findCI finalAnswerMarker.toList s.toList = some i →
      startsWithCI finalAnswerMarker.toList (s.toList.drop i) = true ∧
      (∀ j, j < i →
        startsWithCI finalAnswerMarker.toList (s.toList.drop j) = false) ∧
      parseAnswer s =
        pyStrip (String.mk (s.toList.drop (i + finalAnswerMarker.length)))) ∧
    (findCI finalAnswerMarker.toList s.toList = none →
      (∀ j, startsWithCI finalAnswerMarker.toList (s.toList.drop j) = false) ∧
      parseAnswer s = pyStrip s) := by
  constructor
  · intro i h
    obtain ⟨h1, h2⟩ := findCI_some_spec _ _ _ h
    refine ⟨h1, h2, ?_⟩
    unfold parseAnswer
    rw [h]
  · intro h
    refine ⟨findCI_none_spec _ _ h, ?_⟩
    unfold parseAnswer
    rw [h]

/-- Witness for `parseAnswer_spec`: a marker at index 5 (with different
capitalisation) is found and everything after it is returned stripped; an
output with no marker is returned whole. -/
theorem parseAnswer_spec_witness :
    startsWithCI finalAnswerMarker.toList
      (("blah **FINAL Answer:** yes").toList.drop 5) = true ∧
    parseAnswer "blah **FINAL Answer:** yes" =
      pyStrip (String.mk (("blah **FINAL Answer:** yes").toList.drop
        (5 + finalAnswerMarker.length))) ∧
    parseAnswer "no marker here" = pyStrip "no marker here" := by
  refine ⟨?_, ?_, ?_⟩
  · exact ((parseAnswer_spec "blah **FINAL Answer:** yes").1 5 (by decide)).1
  · exact ((parseAnswer_spec "blah **FINAL Answer:** yes").1 5 (by decide)).2.2
  · exact ((parseAnswer_spec "no marker here").2 (by decide)).2

/-- C8 counterexample: the output `"Final Answer: yes"` contains the literal
"Final Answer" marker the claim describes, yet the parser does not find its
actual pattern `**Final Answer:**` and returns the FULL raw output — not
the text after the marker (`": yes"`). -/
theorem parseAnswer_bare_marker_counterexample :
    (findCI ("Final Answer").toList ("Final Answer: yes").toList).isSome
      = true ∧
    parseAnswer "Final Answer: yes" = "Final Answer: yes" ∧
    ("Final Answer: yes" : String) ≠ ": yes" := by
  decide

/-! ## C6 / C7 — the digital-twin QA pipeline (src/backend/main.py 312-412)

The llama generation capability is a parameter
`gen : String → Except Unit String` mapping a prompt to generated text;
`Except.error ()` models `llm.create_completion` raising (there is no
try/except anywhere on this path, so an exception propagates out of the
endpoint).  Retrieval (`semantic_search` on the encoded rich query against
the database) is a parameter `retrieve` returning the ranked
`(entry_date, content)` pairs.  The `Nat` paired with the answer is
instrumentation: the number of generation-capability calls made on the
returned path (the code makes one call in `_expand_query_for_retrieval`
and, unless it short-circuits, a second for answer synthesis). -/

/-- The query-expansion prompt of `_expand_query_for_retrieval`. -/
def expansionPrompt (query : String) : String :=
  "You are a search expert. Expand the user\x27s query into a short, " ++
  "comma-separated list of 5-7 related keywords and concepts for a " ++
  "semantic search. Do not add any explanation.\n\nUser Query: \"" ++
  query ++ "\"\n\nKeywords:"

/-- The canned response returned when retrieval comes back empty. -/
def cannedNoMemory : String :=
  "Based on my journal entries, I don\x27t have a strong memory of that. " ++
  "Try rephrasing your question or asking about something else."

/-- The chain-of-thought answer prompt of STEP 4 of `digital_twin_qa`. -/
def finalPrompt (context query : String) : String :=
  "<start_of_turn>user\nYou are a digital twin, a consciousness built " ++
  "from the journal of your author. Your entire personality and memory " ++
  "are based ONLY on the provided memories below.\nYour task is to " ++
  "answer the user\x27s question by following a strict thought " ++
  "process.\n\n**Memories:**\n---\n" ++ context ++
  "\n---\n\n**Question:** " ++ query ++
  "\n\n**Instructions:**\nFirst, write a \"Chain of Thought\" section " ++
  "where you analyze the memories to find the answer.\n- Systematically " ++
  "go through the provided memories.\n- Extract key quotes, feelings, " ++
  "and events that are directly relevant to the question.\n- Synthesize " ++
  "these points to form a coherent understanding.\n- If the memories do " ++
  "not contain an answer, state that clearly in your analysis.\n\n" ++
  "Second, based *only* on your Chain of Thought, write the \"Final " ++
  "Answer.\"\n- The answer must be in the first person (\x27I\x27, " ++
  "\x27me\x27, \x27my\x27).\n- Speak naturally and reflectively.\n- " ++
  "**DO NOT** mention the \"Chain of Thought\" in your final answer.\n- " ++
  "Subtly mention things from your memories when relevant.\n- If the " ++
  "analysis concluded that no answer exists, the final answer must be a " ++
  "humble and natural admission, like \"I\x27ve searched through my " ++
  "memories, but I can\x27t seem to recall the specifics of that.\"\n\n" ++
  "Begin.\n<end_of_turn>\n<start_of_turn>model\n**Chain of Thought:**\n- "

/-- Model of `_expand_query_for_retrieval`: one generation call, output
`.strip()`ed.  No try/except: a capability exception propagates. -/
def expandQueryForRetrieval (gen : String → Except Unit String)
    (query : String) : Except Unit String :=
  match gen (expansionPrompt query) with
  | .error e => .error e
  | .ok t => .ok (pyStrip t)

/-- STEPS 2b-5 of `digital_twin_qa`, from the retrieval results onward:
short-circuit on empty retrieval, otherwise budget the context, run the
answer-generation call and parse its output. -/
def qaAfterExpansion (gen : String → Except Unit String)
    (results : List (String × String)) (query : String) :
    Except Unit (String × Nat) :=
  if results.isEmpty then .ok (cannedNoMemory, 1)
  else
    match gen (finalPrompt (formattedContext results) query) with
    | .error e => .error e
    | .ok full => .ok (parseAnswer full, 2)

/-- Model of `digital_twin_qa`: STEP 1 expands the query (`rich_query =
f"{query}, {expanded_terms}"`), then retrieval and the rest of the
pipeline run on the rich query. -/
def digitalTwinQA (gen : String → Except Unit String)
    (retrieve : String → List (String × String)) (query : String) :
    Except Unit (String × Nat) :=
  match expandQueryForRetrieval gen query with
  | .error e => .error e
  | .ok expanded =>
    qaAfterExpansion gen (retrieve (query ++ ", " ++ expanded)) query

/-- C6 (amended): when retrieval returns zero entries the pipeline returns
the canned "no memory" answer without invoking the answer-synthesis
generation call — but the query-expansion generation call has already been
made before the short-circuit, so exactly one generation-capability call
occurs, not zero. -/
theorem qa_empty_retrieval_short_circuit
    (gen : String → Except Unit String)
    (retrieve : String → List (String × String)) (query raw : String)
    (h1 : gen (expansionPrompt query) = .ok raw)
    (h2 : retrieve (query ++ ", " ++ pyStrip raw) = []) :
    digitalTwinQA gen retrieve query = .ok (cannedNoMemory, 1) := by
  unfold digitalTwinQA expandQueryForRetrieval
  rw [h1]
  show qaAfterExpansion gen (retrieve (query ++ ", " ++ pyStrip raw)) query
    = .ok (cannedNoMemory, 1)
  rw [h2]
  rfl

/-- Witness for `qa_empty_retrieval_short_circuit`: the scenario from the
spec — a query with nothing retrievable yields the canned response after
the single expansion call. -/
theorem qa_empty_retrieval_short_circuit_witness :
    digitalTwinQA (fun _ => .ok "kw") (fun _ => [])
      "how did I feel about my job" = .ok (cannedNoMemory, 1) :=
  qa_empty_retrieval_short_circuit (fun _ => .ok "kw") (fun _ => [])
    "how did I feel about my job" "kw" rfl rfl

/-- C6 counterexample: with empty retrieval the pipeline does return the
canned response, but the generation capability has been called once (for
query expansion) — not "without any call to the text-generation
capability". -/
theorem qa_empty_retrieval_generation_was_called :
    digitalTwinQA (fun _ => .ok "kw") (fun _ => [])
        "how did I feel about my job" = .ok (cannedNoMemory, 1) ∧
      (1 : Nat) ≠ 0 := by
  constructor
  · rfl
  · decide

/-- C7 (amended): there is no fallback around query expansion.  If the
generation capability throws during expansion, the whole QA request fails
(the exception propagates out of `digital_twin_qa`); if it returns empty
output, the pipeline proceeds, retrieving with the original query plus a
trailing ", " separator — not with the exact unexpanded query. -/
theorem qa_expansion_failure_behaviour
    (gen : String → Except Unit String)
    (retrieve : String → List (String × String)) (query : String) :
    (gen (expansionPrompt query) = .error () →
      digitalTwinQA gen retrieve query = .error ()) ∧
    (gen (expansionPrompt query) = .ok "" →
      digitalTwinQA gen retrieve query =
        qaAfterExpansion gen (retrieve (query ++ ", ")) query) := by
  constructor
  · intro h
    unfold digitalTwinQA expandQueryForRetrieval
    rw [h]
  · intro h
    unfold digitalTwinQA expandQueryForRetrieval
    rw [h]
    show qaAfterExpansion gen (retrieve (query ++ ", " ++ pyStrip "")) query
      = qaAfterExpansion gen (retrieve (query ++ ", ")) query
    have hps : pyStrip "" = "" := rfl
    rw [hps]
    have happ : query ++ ", " ++ "" = query ++ ", " := by
      apply String.ext
      simp [String.data_append]
    rw [happ]

/-- Witness for `qa_expansion_failure_behaviour`: a generator that throws
makes the whole request fail; one that returns empty output sends the
pipeline on with `"q, "` as the retrieval query. -/
theorem qa_expansion_failure_behaviour_witness :
    digitalTwinQA (fun _ => .error ())
        (fun _ => [("2023-01-01", "x")]) "q" = .error () ∧
    digitalTwinQA (fun _ => .ok "") (fun _ => []) "q" =
      qaAfterExpansion (fun _ => .ok "")
        ((fun _ => ([] : List (String × String))) ("q" ++ ", ")) "q" :=
  ⟨(qa_expansion_failure_behaviour (fun _ => .error ())
      (fun _ => [("2023-01-01", "x")]) "q").1 rfl,
   (qa_expansion_failure_behaviour (fun _ => .ok "")
      (fun _ => []) "q").2 rfl⟩

/-- C7 counterexample: the generation capability throws during query
expansion and the whole QA request fails with the propagated exception —
it does not fall back to the unexpanded query and succeed. -/
theorem qa_expansion_throw_fails_request :
    digitalTwinQA (fun _ => .error ())
        (fun _ => [("2023-01-01", "x")]) "what happened" = .error () ∧
      (Except.error () : Except Unit (String × Nat)) ≠
        .ok (cannedNoMemory, 1) := by
  constructor
  · rfl
  · intro h
    cases h

/-! ## C5 / C10 — the co-occurrence engine (src/backend/main.py 263-274)

`post_co_occurrence`: pydantic validates only `2 <= len(entities) <= 4`;
`entity_list = list(set(req.entities))` collapses duplicates (a Python
set's iteration order is unspecified — it is modelled with `List.dedup`,
and no proved property depends on the order); the SQL pre-filter keeps
entries containing at least one entity (`LIKE '%e%'` = substring), and for
every combination size 1..N each subset's count is the number of pre-filtered
entries containing every member; zero counts are dropped. -/

/-- Pydantic `Field(..., min_length=2, max_length=4)` on
`CoOccurrenceRequest.entities`: only the list length is validated. -/
def coOccurrenceRequestValid (entities : List String) : Bool :=
  2 ≤ entities.length && entities.length ≤ 4

/-- Model of `post_co_occurrence` on the deduplicated entity list. -/
def coOccurrence (entities entries : List String) :
    List (List String × Nat) :=
  let el := entities.dedup
  let relevant := entries.filter (fun c => el.any (fun e => strContains c e))
  let combos :=
    (List.range el.length).flatMap (fun i => List.sublistsLen (i + 1) el)
  (combos.map (fun combo =>
      (combo,
        (relevant.filter
          (fun entry => combo.all (fun e => strContains entry e))).length))).filter
    (fun p => decide (0 < p.2))

theorem sum_choose_one_up (N : Nat) (h2 : 2 ≤ N) (h4 : N ≤ 4) :
    ((List.range N).map (fun i => N.choose (i + 1))).sum = 2 ^ N - 1 := by
  interval_cases N <;> decide

/-- C5: for an entity set of size `N ∈ [2,4]`, the co-occurrence engine
returns at most `2^N - 1` results; every result is keyed by a non-empty
subset of the entity set, carries a positive count equal to the number of
entries (of the FULL collection — the pre-filter loses nothing) containing
every entity of the subset by case-sensitive substring match, and that
count never exceeds the count of any single entity in the subset. -/
theorem coOccurrence_spec (entities entries : List String)
    (h2 : 2 ≤ entities.dedup.length) (h4 : entities.dedup.length ≤ 4) :
    (coOccurrence entities entries).length ≤
      2 ^ entities.dedup.length - 1 ∧
    ∀ p ∈ coOccurrence entities entries,
      p.1 ≠ [] ∧ (∀ e ∈ p.1, e ∈ entities.dedup) ∧ 0 < p.2 ∧
      p.2 = (entries.filter
        (fun entry => p.1.all (fun e => strContains entry e))).length ∧
      ∀ e ∈ p.1,
        p.2 ≤ (entries.filter (fun entry => strContains entry e)).length := by
  constructor
  · have hlen1 : (coOccurrence entities entries).length ≤
        ((List.range entities.dedup.length).flatMap
          (fun i => List.sublistsLen (i + 1) entities.dedup)).length := by
      unfold coOccurrence
      exact le_trans (List.length_filter_le _ _)
        (le_of_eq (List.length_map _ _))
    have hlen2 : ((List.range entities.dedup.length).flatMap
        (fun i => List.sublistsLen (i + 1) entities.dedup)).length =
        2 ^ entities.dedup.length - 1 := by
      rw [List.length_flatMap]
      have hmap : List.map
          (List.length ∘ fun i => List.sublistsLen (i + 1) entities.dedup)
          (List.range entities.dedup.length) =
          List.map (fun i => entities.dedup.length.choose (i + 1))
            (List.range entities.dedup.length) := by
        apply List.map_congr_left
        intro i _
        simp [List.length_sublistsLen]
      rw [hmap, sum_choose_one_up entities.dedup.length h2 h4]
    omega
  · intro p hp
    unfold coOccurrence at hp
    rw [List.mem_filter] at hp
    obtain ⟨hpm, hppos⟩ := hp
    rw [List.mem_map] at hpm
    obtain ⟨combo, hcombo, rfl⟩ := hpm
    rw [List.mem_flatMap] at hcombo
    obtain ⟨i, _, hcombo⟩ := hcombo
    rw [List.mem_sublistsLen] at hcombo
    obtain ⟨hsub, hlen⟩ := hcombo
    have hne : combo ≠ [] := by
      intro h
      rw [h] at hlen
      simp at hlen
    have hcount : (entries.filter (fun c =>
          entities.dedup.any (fun e => strContains c e))).filter
          (fun entry => combo.all (fun e => strContains entry e)) =
        entries.filter
          (fun entry => combo.all (fun e => strContains entry e)) := by
      rw [List.filter_filter]
      apply List.filter_congr
      intro a _
      cases hall : combo.all (fun e => strContains a e) with
      | false => simp
      | true =>
        have hany : entities.dedup.any (fun e => strContains a e) = true := by
          obtain ⟨e, he⟩ := List.exists_mem_of_ne_nil combo hne
          rw [List.all_eq_true] at hall
          rw [List.any_eq_true]
          exact ⟨e, hsub.subset he, hall e he⟩
        simp [hany]
    refine ⟨hne, fun e he => hsub.subset he, ?_, ?_, ?_⟩
    · simpa using hppos
    · show (List.filter _ (List.filter _ entries)).length = _
      rw [hcount]
    · intro e he
      show (List.filter _ (List.filter _ entries)).length ≤ _
      rw [hcount]
      apply List.Sublist.length_le
      apply List.monotone_filter_right
      intro a ha
      rw [List.all_eq_true] at ha
      exact ha e he

/-- Witness for `coOccurrence_spec`: the spec scenario — entries
"I met Alice and Bob at the cafe" and "Alice called me" with entity set
{"Alice", "Bob"}.  The result count is within `2^2 - 1`, and the
{"Alice","Bob"} subset's count 1 does not exceed the count of "Bob"
alone. -/
theorem coOccurrence_spec_witness :
    (coOccurrence ["Alice", "Bob"]
        ["I met Alice and Bob at the cafe", "Alice called me"]).length ≤
      2 ^ (["Alice", "Bob"] : List String).dedup.length - 1 ∧
    (1 : Nat) ≤ ((["I met Alice and Bob at the cafe",
        "Alice called me"] : List String).filter
      (fun entry => strContains entry "Bob")).length :=
  ⟨(coOccurrence_spec ["Alice", "Bob"]
      ["I met Alice and Bob at the cafe", "Alice called me"]
      (by decide) (by decide)).1,
   ((coOccurrence_spec ["Alice", "Bob"]
      ["I met Alice and Bob at the cafe", "Alice called me"]
      (by decide) (by decide)).2 (["Alice", "Bob"], 1)
      (by decide)).2.2.2.2 "Bob" (by decide)⟩

/-- C10: the endpoint validates only the entity-list length: a request with
duplicate entities like `["Alice", "Alice"]` is accepted, collapsed to the
single-entity set {"Alice"}, and can only produce the size-1 subset key
`["Alice"]`. -/
theorem coOccurrence_duplicates_collapsed :
    coOccurrenceRequestValid ["Alice", "Alice"] = true ∧
    (["Alice", "Alice"] : List String).dedup = ["Alice"] ∧
    ∀ (entries : List String) (p : List String × Nat),
      p ∈ coOccurrence ["Alice", "Alice"] entries → p.1 = ["Alice"] := by
  refine ⟨by decide, by decide, ?_⟩
  intro entries p hp
  unfold coOccurrence at hp
  rw [List.mem_filter] at hp
  obtain ⟨hpm, _⟩ := hp
  rw [List.mem_map] at hpm
  obtain ⟨combo, hcombo, rfl⟩ := hpm
  have hcombos : (List.range (["Alice", "Alice"] : List String).dedup.length).flatMap
      (fun i => List.sublistsLen (i + 1)
        (["Alice", "Alice"] : List String).dedup) = [["Alice"]] := by
    decide
  rw [hcombos] at hcombo
  rw [List.mem_singleton] at hcombo
  rw [hcombo]

/-- Witness for `coOccurrence_duplicates_collapsed`: a duplicate request
over one matching entry produces only the key `["Alice"]`. -/
theorem coOccurrence_duplicates_collapsed_witness :
    ((["Alice"], 1) : List String × Nat).1 = ["Alice"] :=
  coOccurrence_duplicates_collapsed.2.2 ["met Alice today"] (["Alice"], 1)
    (by decide)

/-! ## C9 — the common-connections engine (src/backend/main.py 277-288)

`get_common_connections`: validation (empty entity or identical pair →
empty result), intersection of entries containing both entities (SQL
`LIKE` = substring), entity extraction (`nlp`, opaque: parameter
`extract`) over the joined intersection text only, case-insensitive
exclusion of the two query entities, and `Counter(...).most_common(10)` —
counts descending, ties by first insertion (= first occurrence) order. -/

/-- Python `str.lower()`. -/
def pyLower (s : String) : String := String.mk (s.toList.map Char.toLower)

/-- Count `Counter(l)[x]`: the number of occurrences of `x` in `l`. -/
def countOcc (l : List String) (x : String) : Nat :=
  (l.filter (fun y => y == x)).length

/-- The keys of `Counter(l)` in insertion order: first occurrences,
in order of first appearance (`seen` accumulates the keys already
emitted). -/
def firstSeenKeysAux (seen : List String) : List String → List String
  | [] => []
  | x :: t =>
    if x ∈ seen then firstSeenKeysAux seen t
    else x :: firstSeenKeysAux (x :: seen) t

/-- The keys of `Counter(l)` in insertion order. -/
def firstSeenKeys (l : List String) : List String := firstSeenKeysAux [] l

/-- The `heapq.nlargest` order inside `Counter.most_common`: count strictly
larger first, ties by earlier insertion position. -/
def ccRel (others : List String) (a b : Nat × String) : Prop :=
  countOcc others b.2 < countOcc others a.2 ∨
    (countOcc others a.2 = countOcc others b.2 ∧ a.1 ≤ b.1)

instance (others : List String) : DecidableRel (ccRel others) := fun a b => by
  unfold ccRel; infer_instance

instance (others : List String) : IsTotal (Nat × String) (ccRel others) where
  total a b := by
    rcases lt_trichotomy (countOcc others a.2) (countOcc others b.2) with
      h | h | h
    · exact Or.inr (Or.inl h)
    · rcases Nat.le_total a.1 b.1 with hab | hab
      · exact Or.inl (Or.inr ⟨h, hab⟩)
      · exact Or.inr (Or.inr ⟨h.symm, hab⟩)
    · exact Or.inl (Or.inl h)

instance (others : List String) : IsTrans (Nat × String) (ccRel others) where
  trans a b c hab hbc := by
    rcases hab with h1 | ⟨h1, h1'⟩ <;> rcases hbc with h2 | ⟨h2, h2'⟩
    · exact Or.inl (h2.trans h1)
    · exact Or.inl (h2 ▸ h1)
    · exact Or.inl (h1.symm ▸ h2)
    · exact Or.inr ⟨h1.trans h2, h1'.trans h2'⟩

/-- Model of `Counter(others).most_common(10)`: keys enumerated in first-seen order,
sorted by count descending with ties kept in enumeration order, first 10,
paired with their counts. -/
def mostCommon10 (others : List String) : List (String × Nat) :=
  ((List.insertionSort (ccRel others) (firstSeenKeys others).enum).take
      10).map (fun p => (p.2, countOcc others p.2))

/-- The `other_entities` list: extracted entity texts over the joined
intersection text, minus the two query entities (case-insensitive). -/
def ccOthers (extract : String → List String) (entries : List String)
    (e1 e2 : String) : List String :=
  (extract (joinSep " " (entries.filter
      (fun c => strContains c e1 && strContains c e2)))).filter
    (fun t => !(pyLower t == pyLower e1 || pyLower t == pyLower e2))

/-- Model of `get_common_connections`. -/
def commonConnections (extract : String → List String)
    (entries : List String) (e1 e2 : String) : List (String × Nat) :=
  if e1 = "" ∨ e2 = "" ∨ e1 = e2 then []
  else if joinSep " " (entries.filter
      (fun c => strContains c e1 && strContains c e2)) = "" then []
  else mostCommon10 (ccOthers extract entries e1 e2)

/-! ### Counter lemmas -/

theorem mem_firstSeenKeysAux :
    ∀ (l seen : List String) (x : String),
      x ∈ firstSeenKeysAux seen l ↔ x ∈ l ∧ x ∉ seen := by
  intro l
  induction l with
  | nil => intro seen x; simp [firstSeenKeysAux]
  | cons y t ih =>
    intro seen x
    by_cases hy : y ∈ seen
    · rw [show firstSeenKeysAux seen (y :: t) = firstSeenKeysAux seen t from
        by simp [firstSeenKeysAux, hy]]
      rw [ih seen x, List.mem_cons]
      constructor
      · rintro ⟨hx, hns⟩
        exact ⟨Or.inr hx, hns⟩
      · rintro ⟨rfl | hx, hns⟩
        · exact absurd hy hns
        · exact ⟨hx, hns⟩
    · rw [show firstSeenKeysAux seen (y :: t) =
          y :: firstSeenKeysAux (y :: seen) t from
        by simp [firstSeenKeysAux, hy]]
      rw [List.mem_cons, ih (y :: seen) x, List.mem_cons, List.mem_cons]
      constructor
      · rintro (rfl | ⟨hx, hns⟩)
        · exact ⟨Or.inl rfl, hy⟩
        · exact ⟨Or.inr hx, fun hs => hns (Or.inr hs)⟩
      · rintro ⟨rfl | hx, hns⟩
        · exact Or.inl rfl
        · by_cases hxy : x = y
          · exact Or.inl hxy
          · exact Or.inr ⟨hx, fun hs => hs.elim hxy hns⟩

theorem mem_firstSeenKeys (l : List String) (x : String) :
    x ∈ firstSeenKeys l ↔ x ∈ l := by
  unfold firstSeenKeys
  rw [mem_firstSeenKeysAux]
  simp

theorem nodup_firstSeenKeysAux :
    ∀ (l seen : List String), (firstSeenKeysAux seen l).Nodup := by
  intro l
  induction l with
  | nil => intro seen; simp [firstSeenKeysAux]
  | cons y t ih =>
    intro seen
    by_cases hy : y ∈ seen
    · rw [show firstSeenKeysAux seen (y :: t) = firstSeenKeysAux seen t from
        by simp [firstSeenKeysAux, hy]]
      exact ih seen
    · rw [show firstSeenKeysAux seen (y :: t) =
          y :: firstSeenKeysAux (y :: seen) t from
        by simp [firstSeenKeysAux, hy]]
      rw [List.nodup_cons]
      refine ⟨?_, ih (y :: seen)⟩
      intro hmem
      exact ((mem_firstSeenKeysAux t (y :: seen) y).mp hmem).2
        (List.mem_cons_self _ _)

theorem nodup_firstSeenKeys (l : List String) : (firstSeenKeys l).Nodup :=
  nodup_firstSeenKeysAux l []

theorem indexOf_eq_of_getElem? :
    ∀ (l : List String), l.Nodup → ∀ (i : Nat) (x : String),
      l[i]? = some x → l.indexOf x = i := by
  intro l
  induction l with
  | nil => intro _ i x h; simp at h
  | cons a t ih =>
    intro hn i x h
    match i with
    | 0 =>
      rw [List.getElem?_cons_zero, Option.some.injEq] at h
      subst h
      exact List.indexOf_cons_self _ _
    | i + 1 =>
      rw [List.getElem?_cons_succ] at h
      have hx : x ∈ t := List.getElem?_mem h
      have hne : a ≠ x := by
        rintro rfl
        exact (List.nodup_cons.mp hn).1 hx
      rw [List.indexOf_cons_ne _ hne, ih (List.nodup_cons.mp hn).2 i x h]

/-! ### mostCommon10 lemmas -/

theorem mostCommon10_length (others : List String) :
    (mostCommon10 others).length ≤ 10 := by
  unfold mostCommon10
  rw [List.length_map]
  exact List.length_take_le _ _

theorem mostCommon10_mem (others : List String) :
    ∀ p ∈ mostCommon10 others,
      p.1 ∈ others ∧ p.2 = countOcc others p.1 := by
  intro p hp
  unfold mostCommon10 at hp
  rw [List.mem_map] at hp
  obtain ⟨a, ha, rfl⟩ := hp
  have ha2 : a ∈ (firstSeenKeys others).enum :=
    (List.mem_insertionSort _).mp (List.mem_of_mem_take ha)
  refine ⟨?_, rfl⟩
  exact (mem_firstSeenKeys _ _).mp
    (List.getElem?_mem (List.mem_enum_iff_getElem?.mp ha2))

theorem mostCommon10_sorted (others : List String) :
    List.Pairwise (fun p q : String × Nat =>
      q.2 < p.2 ∨ (p.2 = q.2 ∧
        (firstSeenKeys others).indexOf p.1 ≤
          (firstSeenKeys others).indexOf q.1)) (mostCommon10 others) := by
  unfold mostCommon10
  rw [List.pairwise_map]
  have htake : List.Pairwise (ccRel others)
      ((List.insertionSort (ccRel others)
        (firstSeenKeys others).enum).take 10) :=
    (List.sorted_insertionSort _ _).sublist (List.take_sublist _ _)
  apply List.Pairwise.imp_of_mem ?_ htake
  intro a b ha hb hr
  have ha' : a ∈ (firstSeenKeys others).enum :=
    (List.mem_insertionSort _).mp (List.mem_of_mem_take ha)
  have hb' : b ∈ (firstSeenKeys others).enum :=
    (List.mem_insertionSort _).mp (List.mem_of_mem_take hb)
  have hia : (firstSeenKeys others).indexOf a.2 = a.1 :=
    indexOf_eq_of_getElem? _ (nodup_firstSeenKeys _) _ _
      (List.mem_enum_iff_getElem?.mp ha')
  have hib : (firstSeenKeys others).indexOf b.2 = b.1 :=
    indexOf_eq_of_getElem? _ (nodup_firstSeenKeys _) _ _
      (List.mem_enum_iff_getElem?.mp hb')
  rcases hr with h | ⟨h1, h2⟩
  · exact Or.inl h
  · exact Or.inr ⟨h1, by rw [hia, hib]; exact h2⟩

theorem mostCommon10_top (others : List String) :
    ∀ p ∈ mostCommon10 others, ∀ k ∈ others,
      (∀ q ∈ mostCommon10 others, q.1 ≠ k) →
      countOcc others k ≤ p.2 := by
  intro p hp k hk hnotin
  have hkfs : k ∈ firstSeenKeys others := (mem_firstSeenKeys _ _).mpr hk
  obtain ⟨i, hi⟩ := List.getElem?_of_mem hkfs
  have hpair : (i, k) ∈ (firstSeenKeys others).enum :=
    List.mem_enum_iff_getElem?.mpr hi
  have hpair' : (i, k) ∈
      List.insertionSort (ccRel others) (firstSeenKeys others).enum :=
    (List.mem_insertionSort _).mpr hpair
  have hsplit := List.take_append_drop 10
    (List.insertionSort (ccRel others) (firstSeenKeys others).enum)
  rw [← hsplit] at hpair'
  rcases List.mem_append.mp hpair' with hc | hc
  · exfalso
    apply hnotin (k, countOcc others k) ?_ rfl
    unfold mostCommon10
    rw [List.mem_map]
    exact ⟨(i, k), hc, rfl⟩
  · unfold mostCommon10 at hp
    rw [List.mem_map] at hp
    obtain ⟨a, ha, rfl⟩ := hp
    have hpw : List.Pairwise (ccRel others)
        ((List.insertionSort (ccRel others)
            (firstSeenKeys others).enum).take 10 ++
          (List.insertionSort (ccRel others)
            (firstSeenKeys others).enum).drop 10) := by
      rw [hsplit]
      exact List.sorted_insertionSort _ _
    have hrel := (List.pairwise_append.mp hpw).2.2 a ha (i, k) hc
    rcases hrel with h | ⟨h1, _⟩
    · exact le_of_lt h
    · exact le_of_eq h1.symm

/-- C9: the common-connections engine rejects an empty entity or an
identical pair with an empty result; otherwise it returns at most 10
results, each an extracted entity of the intersection text that is (case-
insensitively) neither query entity, paired with its exact occurrence
count; counts are non-increasing with ties in first-seen order; and no
remaining extracted entity outside the result out-counts any returned
one. -/
theorem commonConnections_spec (extract : String → List String)
    (entries : List String) (e1 e2 : String) :
    (e1 = "" ∨ e2 = "" ∨ e1 = e2 →
      commonConnections extract entries e1 e2 = []) ∧
    (commonConnections extract entries e1 e2).length ≤ 10 ∧
    (∀ p ∈ commonConnections extract entries e1 e2,
      p.1 ∈ ccOthers extract entries e1 e2 ∧
      pyLower p.1 ≠ pyLower e1 ∧ pyLower p.1 ≠ pyLower e2 ∧
      p.2 = countOcc (ccOthers extract entries e1 e2) p.1) ∧
    List.Pairwise (fun p q : String × Nat =>
      q.2 < p.2 ∨ (p.2 = q.2 ∧
        (firstSeenKeys (ccOthers extract entries e1 e2)).indexOf p.1 ≤
          (firstSeenKeys (ccOthers extract entries e1 e2)).indexOf q.1))
      (commonConnections extract entries e1 e2) ∧
    (∀ p ∈ commonConnections extract entries e1 e2,
      ∀ k ∈ ccOthers extract entries e1 e2,
        (∀ q ∈ commonConnections extract entries e1 e2, q.1 ≠ k) →
        countOcc (ccOthers extract entries e1 e2) k ≤ p.2) := by
  by_cases hval : e1 = "" ∨ e2 = "" ∨ e1 = e2
  · have hres : commonConnections extract entries e1 e2 = [] := by
      unfold commonConnections
      rw [if_pos hval]
    rw [hres]
    refine ⟨fun _ => rfl, by simp, by simp, List.Pairwise.nil, by simp⟩
  · by_cases htext : joinSep " " (entries.filter
        (fun c => strContains c e1 && strContains c e2)) = ""
    · have hres : commonConnections extract entries e1 e2 = [] := by
        unfold commonConnections
        rw [if_neg hval, if_pos htext]
      rw [hres]
      refine ⟨fun _ => rfl, by simp, by simp, List.Pairwise.nil, by simp⟩
    · have hres : commonConnections extract entries e1 e2 =
          mostCommon10 (ccOthers extract entries e1 e2) := by
        unfold commonConnections
        rw [if_neg hval, if_neg htext]
      rw [hres]
      refine ⟨fun h => absurd h hval, mostCommon10_length _, ?_,
        mostCommon10_sorted _, mostCommon10_top _⟩
      intro p hp
      obtain ⟨hmem, hcnt⟩ := mostCommon10_mem _ p hp
      have hexcl := (List.mem_filter.mp hmem).2
      simp only [Bool.not_eq_true', Bool.or_eq_false_iff, beq_eq_false_iff_ne,
        ne_eq] at hexcl
      exact ⟨hmem, hexcl.1, hexcl.2, hcnt⟩

/-- Witness for `commonConnections_spec`: an identical pair yields an empty
result; over the spec scenario entry the extracted entity "cafe" survives
the case-insensitive exclusion of "Alice"/"Bob" with count 1; with eleven
distinct extracted entities, the eleventh (excluded from the top 10) does
not out-count a returned one. -/
theorem commonConnections_spec_witness :
    commonConnections (fun _ => []) [] "Alice" "Alice" = [] ∧
    pyLower "cafe" ≠ pyLower "Alice" ∧
    (("cafe", 1) : String × Nat).2 =
      countOcc (ccOthers (fun _ => ["Alice", "Bob", "cafe"])
        ["I met Alice and Bob at the cafe"] "Alice" "Bob") "cafe" ∧
    countOcc (ccOthers
        (fun _ => ["k1", "k2", "k3", "k4", "k5", "k6", "k7", "k8", "k9",
          "k10", "k11"]) ["ab"] "a" "b") "k11" ≤
      (("k1", 1) : String × Nat).2 := by
  refine ⟨?_, ?_, ?_, ?_⟩
  · exact (commonConnections_spec (fun _ => []) [] "Alice" "Alice").1
      (Or.inr (Or.inr rfl))
  · exact ((commonConnections_spec (fun _ => ["Alice", "Bob", "cafe"])
      ["I met Alice and Bob at the cafe"] "Alice" "Bob").2.2.1
      ("cafe", 1) (by decide)).2.1
  · exact ((commonConnections_spec (fun _ => ["Alice", "Bob", "cafe"])
      ["I met Alice and Bob at the cafe"] "Alice" "Bob").2.2.1
      ("cafe", 1) (by decide)).2.2.2
  · exact (commonConnections_spec
      (fun _ => ["k1", "k2", "k3", "k4", "k5", "k6", "k7", "k8", "k9",
        "k10", "k11"]) ["ab"] "a" "b").2.2.2.2
      ("k1", 1) (by decide) "k11" (by decide) (by decide)

end Smriti
